import Mathlib

/-!
Verification of the slice-geometry, mosaic-accumulation, mirror-finishing and
option-resolution logic of single_frame_timelapse.py (function SFTL and its
nested helpers add, add_slice, save, process_stills).

Modelling conventions:
* The script is Python 2, so `/` between two ints is floor division; it is true
  division as soon as one operand is a float.  Frame counts are ints for the
  still-image driver and floats for the video driver, so every formula that
  divides by the frame count is parameterised by a flag `fcInt` recording
  whether the count is an int.
* Python `int(x)` truncates toward zero; all values are rationals.
* An image (numpy array of shape height x width x channels) is represented by
  its list of pixel columns, so `frame.shape[1]` is the list length,
  `frame[:, l:r]` is a drop/take with numpy index clamping, horizontal
  `cv2.flip(img, 1)` is list reversal, and `np.concatenate(..., axis=1)` is
  list append.
* The accumulator TLP starts as Python None; `Option` models that.
* The ZeroDivisionError raised by line 111 when the effective width is 0
  (a width-1 frame under mirror = half) is modelled by an explicit
  SliceResult.divByZero outcome, which add_slice propagates as none: the run
  aborts and no mosaic reaches the sink.
-/

/-- A pixel column (the pixels of one image column, top to bottom, channels
flattened); its contents are never inspected by the algorithm. -/
abbrev Col := List ℤ

/-- An image as its list of pixel columns; the width is the list length. -/
abbrev Image := List Col

/-- Python `int()` applied to a rational: truncation toward zero. -/
def pyint (x : ℚ) : ℤ := if 0 ≤ x then ⌊x⌋ else ⌈x⌉

/-- The mirror mode string compared against on line 87. -/
def halfStr : String := "half"

/-- The other documented non-none mirror mode. -/
def fullStr : String := "full"

/-- Line 87: `if mirror == half : img_width /= 2`; `img_width` is a Python int
(from `frame.shape`), so the halving is Python 2 integer floor division. -/
def effWidth (mirror : Option String) (w : ℕ) : ℕ :=
  if mirror = some halfStr then w / 2 else w

/-- Line 88: `slice_width_float = img_width / frame_count`.  In Python 2 this
is floor division when the frame count is an int (still-image driver) and true
division when it is a float (video driver). -/
def sliceWidthFloat (fc : ℚ) (fcInt : Bool) (iw : ℕ) : ℚ :=
  if fcInt then ((⌊(iw : ℚ) / fc⌋ : ℤ) : ℚ) else (iw : ℚ) / fc

/-- Lines 89-90: `slice_width = int(slice_width_float)`, then clamped to a
minimum of 1. -/
def sliceWidth (fc : ℚ) (fcInt : Bool) (iw : ℕ) : ℤ :=
  let sw := pyint (sliceWidthFloat fc fcInt iw)
  if sw < 1 then 1 else sw

/-- Lines 85-86 and 91-94: the left bound.  Line 86 multiplies the slice
location by the full frame width `w` (it runs before the halving on line 87);
the scanning branch uses the effective width `iw` through the slice width. -/
def leftBound (sl : Option ℚ) (fc : ℚ) (fcInt : Bool) (i : ℕ) (w iw : ℕ) : ℤ :=
  match sl with
  | some s => pyint (s * (w : ℚ))
  | none =>
    let sw := sliceWidth fc fcInt iw
    if ((sw * (i : ℤ) : ℤ) : ℚ) > sliceWidthFloat fc fcInt iw * (i : ℚ) then
      pyint (sliceWidthFloat fc fcInt iw * (i : ℚ))
    else sw * (i : ℤ)

/-- Lines 95-102: the stretch policy for the right bound.  With stretch below
1 the slice width is recomputed as `int(slice_width * stretch)` and re-clamped
to 1; otherwise `right = left + int(slice_width * stretch)`; with no stretch
`right = left + slice_width`. -/
def rightBound (st : Option ℚ) (sw left : ℤ) : ℤ :=
  match st with
  | some t =>
    if t < 1 then
      let sw1 := pyint ((sw : ℚ) * t)
      let sw2 := if sw1 < 1 then 1 else sw1
      left + sw2
    else left + pyint ((sw : ℚ) * t)
  | none => left + sw

/-- Line 111: `k = int(frame_count / img_width)`: Python 2 floor division for
an int frame count, true division then truncation for a float one.  Only
meaningful for a nonzero effective width: with img_width = 0 the division
raises ZeroDivisionError, which sliceGeom models separately (divByZero)
before this value is ever consulted. -/
def decimK (fc : ℚ) (fcInt : Bool) (iw : ℕ) : ℤ :=
  if fcInt then ⌊fc / (iw : ℚ)⌋ else pyint (fc / (iw : ℚ))

/-- Line 115: `add_stretch = img_width / (new_slice_width * frame_count)`,
again Python 2 floor division when the frame count is an int. -/
def addStretch (fc : ℚ) (fcInt : Bool) (iw : ℕ) (nsw : ℤ) : ℚ :=
  if fcInt then ((⌊(iw : ℚ) / ((nsw : ℚ) * fc)⌋ : ℤ) : ℚ)
  else (iw : ℚ) / ((nsw : ℚ) * fc)

/-- Outcome of the per-frame geometry: the frame is skipped by the
fixed-width decimation rule, a strip with the given column bounds is
extracted, or the computation of the decimation divisor on line 111 raises
ZeroDivisionError (reachable: a frame of width 1 under mirror = half has
effective width 1 / 2 = 0 by Python 2 integer division). -/
inductive SliceResult
  | skip
  | strip (left right : ℤ)
  | divByZero
deriving DecidableEq

/-- Lines 84-116 of add_slice: the slice geometry, including the fixed-width
decimation / expansion decision (lines 107-116).  When the decimation branch
fires with a zero effective width, line 111 divides by zero and the program
aborts, modelled by divByZero. -/
def sliceGeom (sl : Option ℚ) (mirror : Option String) (st : Option ℚ)
    (fw : Bool) (fc : ℚ) (fcInt : Bool) (i w : ℕ) : SliceResult :=
  let iw := effWidth mirror w
  let sw := sliceWidth fc fcInt iw
  let left := leftBound sl fc fcInt i w iw
  let right := rightBound st sw left
  let nsw := right - left
  if ((nsw : ℚ) * fc > (iw : ℚ)) ∧ fw = true ∧ nsw = 1 then
    if iw = 0 then SliceResult.divByZero
    else if (i : ℤ) % decimK fc fcInt iw ≠ 0 then SliceResult.skip
    else SliceResult.strip left right
  else if fw = true then
    SliceResult.strip left (left + pyint ((nsw : ℚ) * addStretch fc fcInt iw nsw))
  else SliceResult.strip left right

/-- numpy basic-slicing index normalisation: a negative index counts from the
end, and the result is clamped to the range 0..w. -/
def npIndex (w : ℕ) (x : ℤ) : ℕ :=
  if x < 0 then ((w : ℤ) + x).toNat else min x.toNat w

/-- numpy column slice `frame[:, l:r]` on the column-list representation. -/
def npslice (cols : Image) (l r : ℤ) : Image :=
  let a := npIndex cols.length l
  let b := npIndex cols.length r
  (cols.drop a).take (b - a)

/-- Lines 77-80: `add`, horizontal concatenation of two images. -/
def addImg (img1 img2 : Image) : Image := img1 ++ img2

/-- Horizontal flip, `cv2.flip(img, 1)`: the column order reverses, each
column itself is unchanged. -/
def flipH (img : Image) : Image := img.reverse

/-- Lines 82-124: add_slice.  The accumulator is re-seeded to a zero-width
image at index 0 (line 104-105), the geometry decides skip or bounds, and the
extracted strip is appended.  A none accumulator stands for a run that can no
longer deliver a mosaic: the ZeroDivisionError of line 111 aborts the run and
none is absorbing thereafter (the re-seed happens only at index 0, which is
processed first). -/
def add_slice (sl : Option ℚ) (mirror : Option String) (st : Option ℚ)
    (fw : Bool) (TLP : Option Image) (fc : ℚ) (fcInt : Bool) (i : ℕ)
    (frame : Image) : Option Image :=
  let TLP0 := if i = 0 then some ([] : Image) else TLP
  match sliceGeom sl mirror st fw fc fcInt i frame.length with
  | SliceResult.skip => TLP0
  | SliceResult.strip l r => TLP0.map (fun m => addImg m (npslice frame l r))
  | SliceResult.divByZero => none

/-- Lines 126-129 of save: the mirror finishing step.  Any non-None mirror
value appends the horizontally flipped copy of the whole accumulated mosaic.
A None accumulator cannot be flipped or written (cv2 raises), modelled as
none reaching the sink. -/
def save (mirror : Option String) (TLP : Option Image) : Option Image :=
  TLP.map (fun m => if mirror.isSome then addImg m (flipH m) else m)

/-- Lines 154-159: the enumerate loop of process_stills, carrying the
accumulator and the running index over the remaining frames. -/
def stillsLoop (sl : Option ℚ) (mirror : Option String) (st : Option ℚ)
    (fw : Bool) (fc : ℚ) (TLP : Option Image) (i : ℕ) :
    List Image → Option Image
  | [] => TLP
  | f :: rest =>
    stillsLoop sl mirror st fw fc (add_slice sl mirror st fw TLP fc true i f)
      (i + 1) rest

/-- Lines 147-160: the still-image driver.  The frame count is the number of
files (a Python int), frames are processed in ascending index order starting
from the None accumulator, and the result is handed to save. -/
def process_stills (sl : Option ℚ) (mirror : Option String) (st : Option ℚ)
    (fw : Bool) (frames : List Image) : Option Image :=
  save mirror (stillsLoop sl mirror st fw (frames.length : ℚ) none 0 frames)

/-- A Python value as it can appear among the SFTL keyword arguments. -/
inductive PyVal
  | num (q : ℚ)
  | str (s : String)
  | bool (b : Bool)
  | pynone
deriving DecidableEq

/-- The local option variables of SFTL (lines 59-66) after resolution. -/
structure SFTLOpts where
  stills : PyVal
  video : PyVal
  youtube : PyVal
  slicelocation : PyVal
  mirror : PyVal
  stretch : PyVal
  fixedwidth : PyVal
  debug : PyVal
deriving DecidableEq

/-- Lines 59-66: the defaults before the kwargs loop runs. -/
def defaultOpts : SFTLOpts :=
  { stills := PyVal.pynone, video := PyVal.pynone, youtube := PyVal.pynone,
    slicelocation := PyVal.pynone, mirror := PyVal.pynone,
    stretch := PyVal.pynone, fixedwidth := PyVal.bool false,
    debug := PyVal.bool false }

/-- Lines 67-75: one iteration of the kwargs loop; each recognised key
overwrites the matching option variable, any other key matches no test. -/
def applyKwarg (o : SFTLOpts) (kv : String × PyVal) : SFTLOpts :=
  let o := if kv.1 = "slice" then { o with slicelocation := kv.2 } else o
  let o := if kv.1 = "mirror" then { o with mirror := kv.2 } else o
  let o := if kv.1 = "stills" then { o with stills := kv.2 } else o
  let o := if kv.1 = "video" then { o with video := kv.2 } else o
  let o := if kv.1 = "youtube" then { o with youtube := kv.2 } else o
  let o := if kv.1 = "stretch" then { o with stretch := kv.2 } else o
  let o := if kv.1 = "fixedwidth" then { o with fixedwidth := kv.2 } else o
  if kv.1 = "debug" then { o with debug := kv.2 } else o

/-- Lines 59-75: option resolution from the caller-supplied keyword
arguments, taken as an association list. -/
def SFTL_config (kwargs : List (String × PyVal)) : SFTLOpts :=
  kwargs.foldl applyKwarg defaultOpts

/-! Helper lemmas about the numeric primitives. -/

theorem effWidth_none (w : ℕ) : effWidth none w = w :=
  if_neg (fun h => Option.noConfusion h)

theorem effWidth_some_ne (s : String) (hs : s ≠ halfStr) (w : ℕ) :
    effWidth (some s) w = w :=
  if_neg (fun h => hs (Option.some.inj h))

theorem effWidth_half (w : ℕ) : effWidth (some halfStr) w = w / 2 := if_pos rfl

theorem pyint_of_nonneg {x : ℚ} (h : 0 ≤ x) : pyint x = ⌊x⌋ := if_pos h

theorem pyint_intCast (n : ℤ) : pyint ((n : ℤ) : ℚ) = n := by
  unfold pyint; split <;> simp

theorem one_le_pyint {x : ℚ} (h : 1 ≤ x) : 1 ≤ pyint x := by
  rw [pyint_of_nonneg (le_trans zero_le_one h)]
  exact Int.le_floor.mpr (by exact_mod_cast h)

theorem pyint_nonneg {x : ℚ} (h : 0 ≤ x) : 0 ≤ pyint x := by
  rw [pyint_of_nonneg h]
  exact Int.le_floor.mpr (by exact_mod_cast h)

theorem if_lt_one_max (n : ℤ) : (if n < 1 then 1 else n) = max 1 n := by
  split <;> omega

theorem one_le_sliceWidth (fc : ℚ) (fcInt : Bool) (iw : ℕ) :
    1 ≤ sliceWidth fc fcInt iw := by
  simp only [sliceWidth]
  split <;> omega

theorem sliceWidthFloat_nonneg {fc : ℚ} (hfc : 0 < fc) (fcInt : Bool) (iw : ℕ) :
    0 ≤ sliceWidthFloat fc fcInt iw := by
  unfold sliceWidthFloat
  split
  · exact_mod_cast Int.le_floor.mpr
      (by simpa using div_nonneg (Nat.cast_nonneg iw) hfc.le)
  · exact div_nonneg (Nat.cast_nonneg iw) hfc.le

theorem one_le_rightBound_sub (st : Option ℚ) (sw left : ℤ) (hsw : 1 ≤ sw) :
    1 ≤ rightBound st sw left - left := by
  cases st with
  | none => simp only [rightBound]; omega
  | some t =>
    by_cases ht : t < 1
    · simp only [rightBound, if_pos ht]
      split <;> omega
    · simp only [rightBound, if_neg ht]
      have ht1 : (1 : ℚ) ≤ t := not_lt.mp ht
      have hsw1 : (1 : ℚ) ≤ (sw : ℚ) := by exact_mod_cast hsw
      have h1 : (1 : ℚ) ≤ (sw : ℚ) * t := by
        have := mul_le_mul hsw1 ht1 zero_le_one (le_trans zero_le_one hsw1)
        linarith
      have := one_le_pyint h1
      omega

theorem addStretch_nonneg {fc : ℚ} (hfc : 0 < fc) (fcInt : Bool) (iw : ℕ)
    {nsw : ℤ} (hnsw : 0 < nsw) : 0 ≤ addStretch fc fcInt iw nsw := by
  have hd : (0 : ℚ) ≤ (iw : ℚ) / ((nsw : ℚ) * fc) :=
    div_nonneg (Nat.cast_nonneg iw)
      (mul_nonneg (by exact_mod_cast hnsw.le) hfc.le)
  unfold addStretch
  split
  · exact_mod_cast Int.le_floor.mpr (by simpa using hd)
  · exact hd

theorem one_le_decimK {fc : ℚ} (fcInt : Bool) {iw : ℕ} (hiw : 1 ≤ iw)
    (hlt : (iw : ℚ) < fc) : 1 ≤ decimK fc fcInt iw := by
  have hiw0 : (0 : ℚ) < (iw : ℚ) := by exact_mod_cast Nat.lt_of_lt_of_le Nat.zero_lt_one hiw
  have h1 : (1 : ℚ) ≤ fc / (iw : ℚ) := (one_le_div hiw0).mpr hlt.le
  unfold decimK
  split
  · exact Int.le_floor.mpr (by exact_mod_cast h1)
  · rw [pyint_of_nonneg (le_trans zero_le_one h1)]
    exact Int.le_floor.mpr (by exact_mod_cast h1)

/-- C1 amended: under the fixed-width policy, whenever the decimation branch
fires (fixed_width true, new_slice_width = right - left equals 1, and
final_width = new_slice_width * frame_count exceeds the effective width) and
the effective width is at least one pixel, the divisor
k = int(frame_count / effective_width) satisfies k >= 1, and the frame is
skipped exactly when i mod k is nonzero.  (With effective width 0 the branch
instead raises ZeroDivisionError, see the counterexample below.) -/
theorem C1_decimation_mod (sl : Option ℚ) (mirror : Option String)
    (st : Option ℚ) (fc : ℚ) (fcInt : Bool) (i w : ℕ) (iw : ℕ) (l r : ℤ)
    (hiwdef : iw = effWidth mirror w) (hiw : 1 ≤ iw)
    (hl : l = leftBound sl fc fcInt i w iw)
    (hr : r = rightBound st (sliceWidth fc fcInt iw) l)
    (hnsw : r - l = 1)
    (hfinal : ((r - l : ℤ) : ℚ) * fc > (iw : ℚ)) :
    1 ≤ decimK fc fcInt iw ∧
      (sliceGeom sl mirror st true fc fcInt i w = SliceResult.skip ↔
        ¬ (i : ℤ) % decimK fc fcInt iw = 0) := by
  subst hiwdef
  subst hl
  subst hr
  have hlt : (effWidth mirror w : ℚ) < fc := by
    rw [hnsw] at hfinal
    simpa using hfinal
  refine ⟨one_le_decimK fcInt hiw hlt, ?_⟩
  simp only [sliceGeom]
  rw [if_pos ⟨hfinal, by trivial, hnsw⟩, if_neg (by omega : ¬ effWidth mirror w = 0)]
  by_cases hmod : (i : ℤ) % decimK fc fcInt (effWidth mirror w) = 0 <;>
    simp [hmod]

/-- Witness for C1: 30 frames of width 10, no options but fixed_width; the
decimation divisor is 3 and frame 1 is skipped since 1 mod 3 is nonzero. -/
theorem C1_decimation_mod_witness :
    1 ≤ decimK 30 true (effWidth none 10) ∧
      (sliceGeom none none none true 30 true 1 10 = SliceResult.skip ↔
        ¬ (1 : ℤ) % decimK 30 true (effWidth none 10) = 0) :=
  C1_decimation_mod none none none 30 true 1 10 (effWidth none 10)
    (leftBound none 30 true 1 10 (effWidth none 10))
    (rightBound none (sliceWidth 30 true (effWidth none 10))
      (leftBound none 30 true 1 10 (effWidth none 10)))
    rfl (by rw [effWidth_none]; norm_num) rfl rfl
    (by norm_num [rightBound, leftBound, sliceWidth, sliceWidthFloat,
      effWidth_none, pyint])
    (by norm_num [rightBound, leftBound, sliceWidth, sliceWidthFloat,
      effWidth_none, pyint])

/-- C1 fails as frozen: a single frame of width 1 under mirror = half and
fixed_width has effective width 1 / 2 = 0 by Python 2 integer division, the
decimation branch fires (final_width 1 > 0, new_slice_width 1), and line 111
raises ZeroDivisionError: no divisor k >= 1 exists there and the frame is
neither included nor skipped by the modulo rule. -/
theorem C1_counterexample :
    effWidth (some halfStr) 1 = 0 ∧
      sliceGeom none (some halfStr) none true 1 true 0 1 =
        SliceResult.divByZero := by
  constructor
  · decide
  · norm_num [sliceGeom, effWidth_half, sliceWidth, sliceWidthFloat,
      leftBound, rightBound, pyint]

/-- C2 fails on the fixed-width expansion branch: with 300 frames of width
100, stretch 2 and fixed_width, new_slice_width is 2, add_stretch is the
Python 2 floor division 100 / 600 = 0, and the recomputed right bound
collapses onto the left bound: the geometry returns the strip bounds
left = 0, right = 0, refuting right > left for a non-skipped frame. -/
theorem C2_counterexample :
    sliceGeom none none (some 2) true 300 true 0 100 = SliceResult.strip 0 0 := by
  norm_num [sliceGeom, effWidth_none, sliceWidth, sliceWidthFloat, leftBound,
    rightBound, addStretch, pyint]

/-- C2 amended: with a positive frame count the slice geometry never returns
right < left, and right > left holds whenever fixed_width is false; on the
fixed-width expansion branch the recomputed width
int(new_slice_width * add_stretch) is only nonnegative and can be zero. -/
theorem C2_amended_bounds (sl : Option ℚ) (mirror : Option String)
    (st : Option ℚ) (fw : Bool) (fc : ℚ) (fcInt : Bool) (i w : ℕ) (l r : ℤ)
    (hfc : 0 < fc)
    (h : sliceGeom sl mirror st fw fc fcInt i w = SliceResult.strip l r) :
    l ≤ r ∧ (fw = false → l < r) := by
  have hsw := one_le_sliceWidth fc fcInt (effWidth mirror w)
  have hnsw := one_le_rightBound_sub st (sliceWidth fc fcInt (effWidth mirror w))
    (leftBound sl fc fcInt i w (effWidth mirror w)) hsw
  simp only [sliceGeom] at h
  split at h
  · next hcond =>
    split at h
    · exact absurd h (by simp)
    · split at h
      · exact absurd h (by simp)
      · rw [SliceResult.strip.injEq] at h
        refine ⟨by omega, ?_⟩
        intro hfw
        rw [hfw] at hcond
        simp at hcond
  · next hcond =>
    split at h
    · next hfw =>
      rw [SliceResult.strip.injEq] at h
      have hast : 0 ≤ addStretch fc fcInt (effWidth mirror w)
          (rightBound st (sliceWidth fc fcInt (effWidth mirror w))
            (leftBound sl fc fcInt i w (effWidth mirror w)) -
           leftBound sl fc fcInt i w (effWidth mirror w)) :=
        addStretch_nonneg hfc fcInt (effWidth mirror w) (by omega)
      have hpy : 0 ≤ pyint
          (((rightBound st (sliceWidth fc fcInt (effWidth mirror w))
              (leftBound sl fc fcInt i w (effWidth mirror w)) -
             leftBound sl fc fcInt i w (effWidth mirror w) : ℤ) : ℚ) *
            addStretch fc fcInt (effWidth mirror w)
              (rightBound st (sliceWidth fc fcInt (effWidth mirror w))
                (leftBound sl fc fcInt i w (effWidth mirror w)) -
               leftBound sl fc fcInt i w (effWidth mirror w))) := by
        refine pyint_nonneg (mul_nonneg ?_ hast)
        exact_mod_cast Int.le_of_lt (by omega)
      refine ⟨by omega, ?_⟩
      intro hfalse
      rw [hfalse] at hfw
      simp at hfw
    · rw [SliceResult.strip.injEq] at h
      exact ⟨by omega, fun _ => by omega⟩

/-- Witness for C2 amended: 10 frames of width 100, no options; the geometry
returns the strip 0-10 and the bounds are strictly ordered. -/
theorem C2_amended_bounds_witness :
    (0 : ℤ) ≤ 10 ∧ (false = false → (0 : ℤ) < 10) :=
  C2_amended_bounds none none none false 10 true 0 100 0 10 (by norm_num)
    (by norm_num [sliceGeom, effWidth_none, sliceWidth, sliceWidthFloat,
      leftBound, rightBound, pyint])

theorem sliceWidth_eq_max {fc : ℚ} (hfc : 0 < fc) (fcInt : Bool) (iw : ℕ) :
    sliceWidth fc fcInt iw = max 1 ⌊(iw : ℚ) / fc⌋ := by
  simp only [sliceWidth, sliceWidthFloat]
  cases fcInt with
  | true =>
    rw [if_pos rfl, pyint_intCast, if_lt_one_max]
  | false =>
    rw [if_neg Bool.false_ne_true,
      pyint_of_nonneg (div_nonneg (Nat.cast_nonneg _) hfc.le), if_lt_one_max]

/-- The baseline slice width as the words of the spec state it, for the
refinement comparison of C3: the effective width is frame_width / 2 as an
exact (real) division under mirror = half, and the slice width is
floor(effective_width / frame_count) clamped to a minimum of 1. -/
def specSliceWidth (mirror : Option String) (fc : ℚ) (w : ℕ) : ℤ :=
  let ew : ℚ := if mirror = some halfStr then (w : ℚ) / 2 else (w : ℚ)
  max 1 ⌊ew / fc⌋

/-- C3 fails for an odd frame width combined with a non-integer frame count:
with width 9, mirror = half and frame count 11/5, the code halves the width
by integer floor division (9 becomes 4, not 9/2) and computes slice width
int(4 / (11/5)) = 1, while the formula of the claim gives
max(1, floor((9/2) / (11/5))) = 2. -/
theorem C3_counterexample :
    sliceWidth (11/5) false (effWidth (some halfStr) 9) = 1 ∧
      specSliceWidth (some halfStr) (11/5) 9 = 2 := by
  constructor
  · rw [effWidth_half]
    norm_num [sliceWidth, sliceWidthFloat, pyint]
  · norm_num [specSliceWidth, if_pos rfl]

/-- C3 amended: the per-frame baseline slice width is
max(1, floor(effective_width / frame_count)), for an integer as well as a
non-integer frame count, where the effective width is the frame width, or the
frame width halved by integer floor division (not exact halving) when
mirror = half. -/
theorem C3_amended_floor_halving (mirror : Option String) (fc : ℚ)
    (fcInt : Bool) (w : ℕ) (hfc : 0 < fc) :
    sliceWidth fc fcInt (effWidth mirror w) =
      max 1 ⌊((effWidth mirror w : ℕ) : ℚ) / fc⌋ ∧
      effWidth (some halfStr) w = w / 2 ∧ effWidth none w = w :=
  ⟨sliceWidth_eq_max hfc fcInt (effWidth mirror w), effWidth_half w,
    effWidth_none w⟩

/-- Witness for C3 amended: at the counterexample input the amended formula
agrees with the code. -/
theorem C3_amended_floor_halving_witness :
    sliceWidth (11/5) false (effWidth (some halfStr) 9) =
      max 1 ⌊((effWidth (some halfStr) 9 : ℕ) : ℚ) / (11/5)⌋ ∧
      effWidth (some halfStr) 9 = 9 / 2 ∧ effWidth none 9 = 9 :=
  C3_amended_floor_halving (some halfStr) (11/5) false 9 (by norm_num)

/-- C4: in scanning mode (no slice_location) the left bound for frame i is
exactly min(slice_width * i, floor(slice_width_float * i)): the integer
position is corrected down to the floored true proportional position whenever
it exceeds it. -/
theorem C4_left_is_min (fc : ℚ) (fcInt : Bool) (i w iw : ℕ) (hfc : 0 < fc) :
    leftBound none fc fcInt i w iw =
      min (sliceWidth fc fcInt iw * (i : ℤ))
        ⌊sliceWidthFloat fc fcInt iw * (i : ℚ)⌋ := by
  have hswf : 0 ≤ sliceWidthFloat fc fcInt iw := sliceWidthFloat_nonneg hfc fcInt iw
  have hswfi : 0 ≤ sliceWidthFloat fc fcInt iw * (i : ℚ) :=
    mul_nonneg hswf (Nat.cast_nonneg i)
  simp only [leftBound]
  split
  · next hgt =>
    rw [pyint_of_nonneg hswfi]
    refine (min_eq_right ?_).symm
    have h1 : (⌊sliceWidthFloat fc fcInt iw * (i : ℚ)⌋ : ℚ) <
        ((sliceWidth fc fcInt iw * (i : ℤ) : ℤ) : ℚ) :=
      lt_of_le_of_lt (Int.floor_le _) hgt
    exact_mod_cast h1.le
  · next hle =>
    refine (min_eq_left ?_).symm
    exact Int.le_floor.mpr (by exact_mod_cast not_lt.mp hle)

/-- Witness for C4: 10 columns over a float frame count of 30 at frame 7;
the clamped integer position 1 * 7 = 7 exceeds the true proportional position
7/3, so the left bound is corrected down to floor(7/3) = 2, the minimum. -/
theorem C4_left_is_min_witness :
    leftBound none 30 false 7 10 10 =
      min (sliceWidth 30 false 10 * (7 : ℤ))
        ⌊sliceWidthFloat 30 false 10 * (7 : ℚ)⌋ :=
  C4_left_is_min 30 false 7 10 10 (by norm_num)

set_option maxHeartbeats 4000000 in
set_option maxRecDepth 10000 in
/-- C5: the stretch policy.  For stretch below 1 the strip is narrowed to
width max(1, floor(slice_width * stretch)); for stretch at least 1 the right
bound is left + floor(slice_width * stretch) with the base slice width kept;
and concretely stretch = 1/2 over 10 frames of width 100 with no other
options yields a mosaic of total width 50 (5 pixel columns per frame). -/
theorem C5_stretch_policy :
    (∀ (fc : ℚ) (fcInt : Bool) (iw : ℕ) (left : ℤ) (t : ℚ), 0 < t → t < 1 →
      rightBound (some t) (sliceWidth fc fcInt iw) left =
        left + max 1 ⌊(sliceWidth fc fcInt iw : ℚ) * t⌋) ∧
    (∀ (sw left : ℤ) (t : ℚ), 1 ≤ sw → 1 ≤ t →
      rightBound (some t) sw left = left + ⌊(sw : ℚ) * t⌋) ∧
    (process_stills none none (some (1/2)) false
        (List.replicate 10 (List.replicate 100 ([0] : Col)))).map List.length =
      some 50 := by
  refine ⟨?_, ?_, ?_⟩
  · intro fc fcInt iw left t ht0 ht1
    have hsw : (0 : ℚ) ≤ (sliceWidth fc fcInt iw : ℚ) := by
      exact_mod_cast (one_le_sliceWidth fc fcInt iw).trans' zero_le_one
    simp only [rightBound, if_pos ht1]
    rw [pyint_of_nonneg (mul_nonneg hsw ht0.le), if_lt_one_max]
  · intro sw left t hsw ht
    have hsw1 : (1 : ℚ) ≤ (sw : ℚ) := by exact_mod_cast hsw
    have h0 : (0 : ℚ) ≤ (sw : ℚ) * t :=
      mul_nonneg (zero_le_one.trans hsw1) (zero_le_one.trans ht)
    simp only [rightBound, if_neg (not_lt.mpr ht)]
    rw [pyint_of_nonneg h0]
  · norm_num [process_stills, stillsLoop, add_slice, sliceGeom, effWidth_none,
      sliceWidth, sliceWidthFloat, leftBound, rightBound, pyint, npslice,
      npIndex, addImg, save, List.replicate, List.drop_succ_cons,
      List.take_succ_cons]
    omega

/-- Witness for C5: a narrowing stretch of 1/2 at slice width 10 gives width
5, and a widening stretch of 2 at slice width 10 gives right = left + 20. -/
theorem C5_stretch_policy_witness :
    rightBound (some (1/2)) (sliceWidth 10 true 100) 0 =
        0 + max 1 ⌊(sliceWidth 10 true 100 : ℚ) * (1/2)⌋ ∧
      rightBound (some 2) 10 0 = 0 + ⌊((10 : ℤ) : ℚ) * 2⌋ :=
  ⟨C5_stretch_policy.1 10 true 100 0 (1/2) (by norm_num) (by norm_num),
    C5_stretch_policy.2.1 10 0 2 (by norm_num) (by norm_num)⟩

theorem sliceGeom_full_eq_none (sl : Option ℚ) (st : Option ℚ) (fw : Bool)
    (fc : ℚ) (fcInt : Bool) (i w : ℕ) :
    sliceGeom sl (some fullStr) st fw fc fcInt i w =
      sliceGeom sl none st fw fc fcInt i w := by
  simp only [sliceGeom, effWidth_some_ne fullStr (by decide), effWidth_none]

theorem add_slice_full_eq_none (sl : Option ℚ) (st : Option ℚ) (fw : Bool)
    (TLP : Option Image) (fc : ℚ) (fcInt : Bool) (i : ℕ) (frame : Image) :
    add_slice sl (some fullStr) st fw TLP fc fcInt i frame =
      add_slice sl none st fw TLP fc fcInt i frame := by
  simp only [add_slice, sliceGeom_full_eq_none]

theorem stillsLoop_full_eq_none (sl : Option ℚ) (st : Option ℚ) (fw : Bool)
    (fc : ℚ) (frames : List Image) :
    ∀ (TLP : Option Image) (i : ℕ),
      stillsLoop sl (some fullStr) st fw fc TLP i frames =
        stillsLoop sl none st fw fc TLP i frames := by
  induction frames with
  | nil => intro TLP i; rfl
  | cons f rest ih =>
    intro TLP i
    simp only [stillsLoop, add_slice_full_eq_none]
    exact ih _ _

theorem save_some_mirror (mir : Option String) (img : Image) (hm : mir ≠ none) :
    save mir (some img) = some (img ++ img.reverse) := by
  cases mir with
  | none => exact absurd rfl hm
  | some s => simp [save, addImg, flipH]

/-- C6: any non-none mirror value makes the finishing step append the
horizontally flipped copy of the whole accumulated mosaic; with mirror = full
the run produces exactly the mirror = none mosaic followed by its reversal,
so the final width is doubled and the second half read right-to-left equals
the first half read left-to-right, column for column. -/
theorem C6_mirror_flip_double (sl st : Option ℚ) (fw : Bool)
    (frames : List Image) (m : Image) :
    (∀ (mir : Option String) (img : Image), mir ≠ none →
      save mir (some img) = some (img ++ img.reverse)) ∧
    (process_stills sl none st fw frames = some m →
      process_stills sl (some fullStr) st fw frames = some (m ++ m.reverse) ∧
        (m ++ m.reverse).length = 2 * m.length ∧
        ((m ++ m.reverse).drop m.length).reverse =
          (m ++ m.reverse).take m.length) := by
  refine ⟨save_some_mirror, fun h => ⟨?_, ?_, ?_⟩⟩
  · cases hX : stillsLoop sl none st fw (frames.length : ℚ) none 0 frames with
    | none =>
      rw [process_stills, hX] at h
      exact absurd h (by simp [save])
    | some a =>
      rw [process_stills, hX] at h
      have ham : a = m := by simpa [save] using h
      rw [process_stills, stillsLoop_full_eq_none, hX, ham]
      exact save_some_mirror (some fullStr) m (fun hc => Option.noConfusion hc)
  · simp only [List.length_append, List.length_reverse]
    omega
  · rw [List.drop_left, List.take_left, List.reverse_reverse]

/-- Witness for C6: one frame of width 4 and no other options accumulates the
4-column mosaic, and with mirror = full the saved mosaic is that followed by
its reversal. -/
theorem C6_mirror_flip_double_witness :
    save (some fullStr) (some [([0] : Col)]) =
        some ([([0] : Col)] ++ [([0] : Col)].reverse) ∧
      process_stills none (some fullStr) none false
          [List.replicate 4 ([0] : Col)] =
        some (List.replicate 4 ([0] : Col) ++
          (List.replicate 4 ([0] : Col)).reverse) :=
  ⟨(C6_mirror_flip_double none none false [] []).1 (some fullStr) [([0] : Col)]
      (fun hc => Option.noConfusion hc),
    ((C6_mirror_flip_double none none false [List.replicate 4 ([0] : Col)]
        (List.replicate 4 ([0] : Col))).2
      (by norm_num [process_stills, stillsLoop, add_slice, sliceGeom,
        effWidth_none, sliceWidth, sliceWidthFloat, leftBound, rightBound,
        pyint, npslice, npIndex, addImg, save, List.replicate,
        List.drop_succ_cons, List.take_succ_cons])).1⟩

/-- C7 (the code, not the claim): with zero frames the enumerate loop never
runs, so no division by the zero frame count is ever evaluated, but the
accumulator handed to save is still the initial Python None, not a zero-width
mosaic, and no explicit zero-count guard exists anywhere on the path. -/
theorem C7_empty_input_none (sl : Option ℚ) (mirror : Option String)
    (st : Option ℚ) (fw : Bool) :
    process_stills sl mirror st fw [] = none ∧
      stillsLoop sl mirror st fw ((0 : ℕ) : ℚ) none 0 [] = none := by
  exact ⟨rfl, rfl⟩

/-- C8 fails: the kwargs loop of SFTL tests each key only against the eight
recognised names, so a call with the unknown option name bogus is accepted
and resolves to exactly the default configuration: it is silently ignored,
never rejected. -/
theorem C8_counterexample :
    SFTL_config [("bogus", PyVal.bool true)] = SFTL_config [] ∧
      SFTL_config [("bogus", PyVal.bool true)] = defaultOpts := by
  exact ⟨rfl, rfl⟩

theorem applyKwarg_unknown (k : String) (v : PyVal) (o : SFTLOpts)
    (h1 : k ≠ "slice") (h2 : k ≠ "mirror") (h3 : k ≠ "stills")
    (h4 : k ≠ "video") (h5 : k ≠ "youtube") (h6 : k ≠ "stretch")
    (h7 : k ≠ "fixedwidth") (h8 : k ≠ "debug") :
    applyKwarg o (k, v) = o := by
  simp only [applyKwarg, if_neg h1, if_neg h2, if_neg h3, if_neg h4,
    if_neg h5, if_neg h6, if_neg h7, if_neg h8]

/-- C8 amended: configuration construction is total and an option under an
unrecognised name is silently ignored: appending it to any kwargs list leaves
the resolved configuration unchanged. -/
theorem C8_amended_unknown_ignored (k : String) (v : PyVal)
    (kwargs : List (String × PyVal))
    (h : ¬ k ∈ ["slice", "mirror", "stills", "video", "youtube", "stretch",
      "fixedwidth", "debug"]) :
    SFTL_config (kwargs ++ [(k, v)]) = SFTL_config kwargs := by
  simp only [List.mem_cons, List.not_mem_nil, or_false] at h
  push_neg at h
  obtain ⟨h1, h2, h3, h4, h5, h6, h7, h8⟩ := h
  unfold SFTL_config
  rw [List.foldl_append, List.foldl_cons, List.foldl_nil,
    applyKwarg_unknown k v _ h1 h2 h3 h4 h5 h6 h7 h8]

/-- Witness for C8 amended: adding an unknown option after a recognised one
changes nothing. -/
theorem C8_amended_unknown_ignored_witness :
    SFTL_config ([("stills", PyVal.str "frames")] ++
        [("unknown", PyVal.num 3)]) =
      SFTL_config [("stills", PyVal.str "frames")] :=
  C8_amended_unknown_ignored "unknown" (PyVal.num 3)
    [("stills", PyVal.str "frames")] (by decide)

/-- C9: the pipeline is deterministic: two runs on equal configurations and
equal frame sequences produce equal final mosaics. -/
theorem C9_deterministic (sl1 sl2 : Option ℚ) (mir1 mir2 : Option String)
    (st1 st2 : Option ℚ) (fw1 fw2 : Bool) (fs1 fs2 : List Image)
    (hsl : sl1 = sl2) (hmir : mir1 = mir2) (hst : st1 = st2) (hfw : fw1 = fw2)
    (hfs : fs1 = fs2) :
    process_stills sl1 mir1 st1 fw1 fs1 = process_stills sl2 mir2 st2 fw2 fs2 := by
  rw [hsl, hmir, hst, hfw, hfs]

/-- Witness for C9: two literal runs of the same call coincide. -/
theorem C9_deterministic_witness :
    process_stills none none none false [[([0] : Col)]] =
      process_stills none none none false [[([0] : Col)]] :=
  C9_deterministic none none none none none none false false
    [[([0] : Col)]] [[([0] : Col)]] rfl rfl rfl rfl rfl

/-- C10: numpy slicing silently truncates the strip at the frame edge: for
nonnegative bounds the number of columns actually appended is
max(0, min(right, frame_width) - left), which can be less than right - left
and can be zero; in particular slice_location = 1 on a single frame of width
100 appends nothing and leaves the mosaic empty. -/
theorem C10_truncated_strip :
    (∀ (cols : Image) (l r : ℤ), 0 ≤ l → 0 ≤ r →
      ((npslice cols l r).length : ℤ) =
        max 0 (min r (cols.length : ℤ) - l)) ∧
    add_slice (some 1) none none false none 1 true 0
        (List.replicate 100 ([0] : Col)) = some [] := by
  constructor
  · intro cols l r hl hr
    simp only [npslice, npIndex, if_neg (not_lt.mpr hl), if_neg (not_lt.mpr hr),
      List.length_take, List.length_drop]
    omega
  · norm_num [add_slice, sliceGeom, effWidth_none, sliceWidth, sliceWidthFloat,
      leftBound, rightBound, pyint, npslice, npIndex, addImg, List.replicate,
      List.drop_succ_cons, List.take_succ_cons]

/-- Witness for C10: columns 1 to 5 requested of a 2-column frame yield
min(5, 2) - 1 = 1 column. -/
theorem C10_truncated_strip_witness :
    ((npslice [([0] : Col), ([0] : Col)] 1 5).length : ℤ) =
      max 0 (min 5 (([([0] : Col), ([0] : Col)] : Image).length : ℤ) - 1) :=
  C10_truncated_strip.1 [([0] : Col), ([0] : Col)] 1 5 (by norm_num)
    (by norm_num)
